import Mathlib

/-!
Shallow embedding of the `gcredstash` secret-storage core
(`src/gcredstash/driver.go`) and proofs about it.

Byte strings are modelled as `List Nat` (each entry one byte, `< 256` where
it matters).  The DynamoDB table is modelled as a list of items together with
an optional injected transport fault; the AWS KMS service and the external
cryptographic primitives from the Go standard library (the AES block
permutation behind `cipher.NewCTR`, and HMAC-SHA256 behind `crypto/hmac`)
are parameters of the development, constrained only by their documented
contracts.  The `encoding/hex` and `encoding/base64` codecs are implemented
concretely, faithful to the Go standard library's behaviour on the
operations the program uses.  A Go `panic` is modelled as a distinguished
outcome, separate from a returned error value.
-/

namespace Gcredstash

/-- Byte strings: each element is one byte. -/
abbrev Bytes := List Nat

/-- Encryption context, Go `map[string]string`, modelled as an association
list of key/value pairs (the program only forwards it to KMS and tests its
size). -/
abbrev Ctx := List (String × String)

/-! ### Generic string helpers (Go `strings.Contains`) -/

/-- Boolean prefix test on character lists. -/
def isPrefixL : List Char → List Char → Bool
  | [], _ => true
  | _ :: _, [] => false
  | a :: as, b :: bs => a == b && isPrefixL as bs

/-- Substring search, Go `strings.Contains(hay, needle)`:
`containsSub needle hay` is true iff `needle` occurs contiguously in
`hay`. -/
def containsSub (needle : List Char) : List Char → Bool
  | [] => isPrefixL needle []
  | c :: rest => isPrefixL needle (c :: rest) || containsSub needle rest

/-! ### Go `strconv.Atoi` -/

/-- ASCII decimal digit test. -/
def isDigitB (c : Char) : Bool := 48 ≤ c.toNat && c.toNat ≤ 57

/-- Accumulate decimal digits; fails on any non-digit character. -/
def digitsToNatAux (acc : Nat) : List Char → Option Nat
  | [] => some acc
  | c :: rest =>
      if isDigitB c then digitsToNatAux (acc * 10 + (c.toNat - 48)) rest
      else none

/-- Go `strconv.Atoi`: optional sign, then one or more ASCII digits
(overflow is not modelled; the stored version numbers are small). -/
def atoi (s : String) : Option Int :=
  match s.data with
  | [] => none
  | '+' :: rest =>
      match rest with
      | [] => none
      | _ :: _ => (digitsToNatAux 0 rest).map Int.ofNat
  | '-' :: rest =>
      match rest with
      | [] => none
      | _ :: _ => (digitsToNatAux 0 rest).map fun n => -(n : Int)
  | l => (digitsToNatAux 0 l).map Int.ofNat

/-! ### Go `encoding/hex` -/

/-- Lowercase hex digit for a value `< 16` (Go `hex.EncodeToString` emits
lowercase). -/
def hexDigitChar (n : Nat) : Char :=
  if n < 10 then Char.ofNat (48 + n) else Char.ofNat (97 + (n - 10))

/-- Value of a hex digit character; accepts both cases like Go
`hex.DecodeString`. -/
def hexDigitVal (c : Char) : Option Nat :=
  let n := c.toNat
  if 48 ≤ n ∧ n ≤ 57 then some (n - 48)
  else if 97 ≤ n ∧ n ≤ 102 then some (n - 87)
  else if 65 ≤ n ∧ n ≤ 70 then some (n - 55)
  else none

/-- Hex encoding of a byte string, two lowercase digits per byte. -/
def hexEncodeL : Bytes → List Char
  | [] => []
  | b :: rest => hexDigitChar (b / 16) :: hexDigitChar (b % 16) :: hexEncodeL rest

/-- Hex decoding; fails on odd length or a non-hex character, as Go
`hex.DecodeString` reports an error there. -/
def hexDecodeL : List Char → Option Bytes
  | [] => some []
  | [_] => none
  | a :: b :: rest =>
      match hexDigitVal a, hexDigitVal b, hexDecodeL rest with
      | some x, some y, some tl => some ((16 * x + y) :: tl)
      | _, _, _ => none

/-- Go `hex.EncodeToString`. -/
def hexEncode (bs : Bytes) : String := ⟨hexEncodeL bs⟩

/-- Go `hex.DecodeString`, `none` standing for a returned error. -/
def hexDecode (s : String) : Option Bytes := hexDecodeL s.data

/-! ### Go `encoding/base64` (StdEncoding) -/

/-- Character of the standard base64 alphabet for a sextet `< 64`. -/
def b64Char (n : Nat) : Char :=
  if n < 26 then Char.ofNat (65 + n)
  else if n < 52 then Char.ofNat (97 + (n - 26))
  else if n < 62 then Char.ofNat (48 + (n - 52))
  else if n = 62 then Char.ofNat 43
  else Char.ofNat 47

/-- Value of a standard base64 alphabet character. -/
def b64CharVal (c : Char) : Option Nat :=
  let n := c.toNat
  if 65 ≤ n ∧ n ≤ 90 then some (n - 65)
  else if 97 ≤ n ∧ n ≤ 122 then some (n - 97 + 26)
  else if 48 ≤ n ∧ n ≤ 57 then some (n - 48 + 52)
  else if n = 43 then some 62
  else if n = 47 then some 63
  else none

/-- Base64 encoding with padding, Go `base64.StdEncoding.EncodeToString`. -/
def b64EncodeL : Bytes → List Char
  | [] => []
  | [a] => [b64Char (a / 4), b64Char (a % 4 * 16), '=', '=']
  | [a, b] => [b64Char (a / 4), b64Char (a % 4 * 16 + b / 16), b64Char (b % 16 * 4), '=']
  | a :: b :: c :: rest =>
      b64Char (a / 4) :: b64Char (a % 4 * 16 + b / 16) ::
      b64Char (b % 16 * 4 + c / 64) :: b64Char (c % 64) :: b64EncodeL rest

/-- Base64 decoding, Go `base64.StdEncoding.DecodeString`: the length must
be a multiple of four, padding may occur only in the final quantum, and any
character outside the alphabet is an error (`none`). -/
def b64DecodeL : List Char → Option Bytes
  | [] => some []
  | c1 :: c2 :: c3 :: c4 :: rest =>
      match b64CharVal c1, b64CharVal c2 with
      | some x1, some x2 =>
          if c3 = '=' then
            if c4 = '=' ∧ rest = [] then some [x1 * 4 + x2 / 16] else none
          else
            match b64CharVal c3 with
            | some x3 =>
                if c4 = '=' then
                  if rest = [] then some [x1 * 4 + x2 / 16, x2 % 16 * 16 + x3 / 4] else none
                else
                  match b64CharVal c4, b64DecodeL rest with
                  | some x4, some tl =>
                      some ((x1 * 4 + x2 / 16) :: (x2 % 16 * 16 + x3 / 4) ::
                            (x3 % 4 * 64 + x4) :: tl)
                  | _, _ => none
            | none => none
      | _, _ => none
  | _ => none

/-- Go `base64.StdEncoding.EncodeToString`. -/
def b64encode (bs : Bytes) : String := ⟨b64EncodeL bs⟩

/-- Go `base64.StdEncoding.DecodeString`, `none` standing for a returned
error. -/
def b64decode (s : String) : Option Bytes := b64DecodeL s.data

/-! ### Data model: table items, store state, call outcomes -/

/-- One DynamoDB item of the credential table, the persisted record layout
`\x7bname, version, key, contents, hmac\x7d`, every attribute a string
(`key`/`contents` base64, `hmac` hex). -/
structure Item where
  name : String
  version : String
  key : String
  contents : String
  hmac : String
deriving DecidableEq, Repr

/-- The DynamoDB table state: the stored items, plus an optional injected
transport fault — when `fault = some e`, every service call fails with the
error `e` (modelling AWS transport/service errors, which the code
propagates). -/
structure Store where
  items : List Item
  fault : Option String
deriving DecidableEq, Repr

/-- Result of running one operation of the Go program: a normal return, a
returned Go `error`, or a Go `panic` (which aborts the process — it is a
distinct outcome, not an error value). -/
inductive Outcome (α : Type) where
  | ok : α → Outcome α
  | err : String → Outcome α
  | panicked : String → Outcome α
deriving DecidableEq, Repr

/-- External cryptographic primitives from the Go standard library, taken as
parameters: `blockEnc key block` is the AES block permutation used by
`cipher.NewCTR` (always 16 output bytes for a valid key), and
`hmacSha256 message key` is HMAC-SHA256 as computed by `doHmac`. -/
structure CryptoEnv where
  blockEnc : Bytes → Bytes → Bytes
  hmacSha256 : Bytes → Bytes → Bytes

/-- The AWS KMS service, taken as a parameter: `generate keyId context`
models `GenerateDataKey` with `NumberOfBytes = 64` and returns the plaintext
data key together with its wrapped (encrypted) form; `decrypt blob context`
models `Decrypt`.  An empty context list models the code not setting the
`EncryptionContext` field. -/
structure KmsEnv where
  generate : String → Ctx → Except String (Bytes × Bytes)
  decrypt : Bytes → Ctx → Except String Bytes

/-! ### DynamoDB range-key order and the latest-version query -/

/-- Byte-wise lexicographic order, the ordering DynamoDB applies to string
range keys (UTF-8 bytes; the version strings here are ASCII, so comparing
code points agrees with comparing bytes). -/
def bytesLt : List Nat → List Nat → Bool
  | [], [] => false
  | [], _ :: _ => true
  | _ :: _, [] => false
  | a :: as, b :: bs =>
      if a < b then true else if b < a then false else bytesLt as bs

/-- Range-key order on version strings. -/
def verLt (a b : String) : Bool :=
  bytesLt (a.data.map Char.toNat) (b.data.map Char.toNat)

/-- The item a descending (`ScanIndexForward = false`), `Limit = 1` query
returns among `m :: l`: the one with the greatest range key `version`. -/
def maxItem : Item → List Item → Item
  | m, [] => m
  | m, i :: rest =>
      if verLt m.version i.version then maxItem i rest else maxItem m rest

/-! ### The driver: translations of `src/gcredstash/driver.go` -/

/-- Error text of `dynamodb.PutItem` when `ConditionExpression
attribute_not_exists(#name)` fails, i.e. an item with the same
`(name, version)` key already exists. -/
def condCheckFailedMsg : String :=
  "ConditionalCheckFailedException: The conditional request failed"

/-- Not-found message of `getMaterial` and `getDeleteSecrets` (version
omitted), `Item \x7b\x27name\x27: \x27%s\x27\x7d couldn\x27t be found.` -/
def notFoundName (name : String) : String :=
  "Item \x7b\x27name\x27: \x27" ++ name ++ "\x27\x7d couldn\x27t be found."

/-- Not-found message of `getDeleteSecrets` for an exact version,
`Item \x7b\x27name\x27: \x27%s\x27, \x27version\x27: %d\x7d couldn\x27t be
found.` -/
def notFoundNameVersion (name : String) (ver : Int) : String :=
  "Item \x7b\x27name\x27: \x27" ++ name ++ "\x27, \x27version\x27: " ++
    toString ver ++ "\x7d couldn\x27t be found."

/-- Translation of `getMaterial`: empty version means a strongly consistent, descending,
limit-1 query on the `name` partition (the greatest stored version);
otherwise an exact-key `GetItem`.  Either way an absent record is the
not-found error naming the secret. -/
def getMaterial (st : Store) (name version : String) : Outcome Item :=
  if version = "" then
    match st.fault with
    | some e => .err e
    | none =>
        match st.items.filter (fun i => i.name == name) with
        | [] => .err (notFoundName name)
        | i :: rest => .ok (maxItem i rest)
  else
    match st.fault with
    | some e => .err e
    | none =>
        match st.items.find? (fun i => i.name == name && i.version == version) with
        | none => .err (notFoundName name)
        | some item => .ok item

/-- Translation of `doHmac`: HMAC-SHA256 of the message under the key. -/
def doHmac (e : CryptoEnv) (message key : Bytes) : Bytes :=
  e.hmacSha256 message key

/-- Translation of `checkMAC`: recompute the MAC, hex-decode the stored tag — the code
panics (`panic(err)`) if the hex decode fails — then constant-time compare
(`hmac.Equal`, here plain list equality). -/
def checkMAC (e : CryptoEnv) (message : Bytes) (hmacStr : String) (key : Bytes) :
    Outcome Bool :=
  let expectedMAC := doHmac e message key
  match hexDecode hmacStr with
  | none => .panicked "encoding/hex: invalid byte"
  | some messageMAC => .ok (messageMAC == expectedMAC)

/-- The fixed IV of `cryptAES`: fifteen zero bytes then `0x01`. -/
def ctrIV : Bytes := [0, 0, 0, 0, 0, 0, 0, 0, 0, 0, 0, 0, 0, 0, 0, 1]

/-- Big-endian increment of a counter block, as `cipher.NewCTR` steps the
IV between blocks. -/
def incBytesRev : Bytes → Bytes
  | [] => []
  | b :: rest => if b = 255 then 0 :: incBytesRev rest else (b + 1) :: rest

/-- Big-endian increment of a 16-byte counter block. -/
def incIV (iv : Bytes) : Bytes := (incBytesRev iv.reverse).reverse

/-- The CTR keystream blocks: encryptions of successive counter blocks
under the AES key. -/
def ctrBlocks (e : CryptoEnv) (key iv : Bytes) : Nat → Bytes
  | 0 => []
  | n + 1 => e.blockEnc key iv ++ ctrBlocks e key (incIV iv) n

/-- Translation of `cryptAES`: AES-CTR with the fixed IV `ctrIV` — XOR of the contents
with the keystream (`stream.XORKeyStream`); its own inverse. -/
def cryptAES (e : CryptoEnv) (contents key : Bytes) : Bytes :=
  let ks := (ctrBlocks e key ctrIV ((contents.length + 15) / 16)).take contents.length
  contents.zipWith (· ^^^ ·) ks

/-- Message of `decryptMaterial` when KMS rejects the wrapped key and no
encryption context was supplied. -/
def needCtxMsg (name : String) : String :=
  name ++ ": Could not decrypt hmac key with KMS. The credential may require that an encryption context be provided to decrypt it."

/-- Message of `decryptMaterial` when KMS rejects the wrapped key and a
non-empty encryption context was supplied. -/
def wrongCtxMsg (name : String) : String :=
  name ++ ": Could not decrypt hmac key with KMS. The encryption context provided may not match the one used when the credential was stored."

/-- Message of `decryptMaterial` when the recomputed HMAC differs from the
stored one. -/
def badHmacMsg (name : String) : String :=
  "Computed HMAC on " ++ name ++ " does not match stored HMAC"

/-- Translation of `decryptMaterial`: base64-decode the wrapped key (the code panics on
failure), unwrap it via KMS `Decrypt` — translating an
`InvalidCiphertextException` into one of two context hints — split the
64-byte data key, base64-decode the contents (an error return on failure),
verify the MAC, then decrypt with `cryptAES`. -/
def decryptMaterial (e : CryptoEnv) (kms : KmsEnv) (name : String) (material : Item)
    (context : Ctx) : Outcome Bytes :=
  match b64decode material.key with
  | none => .panicked "illegal base64 data in key"
  | some data =>
      match kms.decrypt data context with
      | .error errText =>
          if containsSub "InvalidCiphertextException".data errText.data then
            if context.length < 1 then .err (needCtxMsg name)
            else .err (wrongCtxMsg name)
          else .err errText
      | .ok plaintextKey =>
          let key := plaintextKey.take 32
          let hmacKey := plaintextKey.drop 32
          match b64decode material.contents with
          | none => .err "illegal base64 data in contents"
          | some contents =>
              match checkMAC e contents material.hmac hmacKey with
              | .panicked p => .panicked p
              | .err msg => .err msg
              | .ok false => .err (badHmacMsg name)
              | .ok true => .ok (cryptAES e contents key)

/-- Translation of `GetHighestVersion`: descending limit-1 query; zero result rows give
`(0, nil)`, otherwise the greatest version string is parsed with
`strconv.Atoi`, whose failure the code turns into a panic. -/
def GetHighestVersion (st : Store) (name : String) : Outcome Int :=
  match st.fault with
  | some e => .err e
  | none =>
      match st.items.filter (fun i => i.name == name) with
      | [] => .ok 0
      | i :: rest =>
          match atoi (maxItem i rest).version with
          | none => .panicked "strconv.Atoi: parsing version"
          | some ver => .ok ver

/-- Translation of `generateDataKey`: KMS `GenerateDataKey` for a 64-byte key; any service
error is replaced by a message naming the KMS key. -/
def generateDataKey (kms : KmsEnv) (kmsKey : String) (context : Ctx) :
    Except String (Bytes × Bytes) :=
  match kms.generate kmsKey context with
  | .error _ => .error ("Could not generate key using KMS key " ++ kmsKey)
  | .ok resp => .ok resp

/-- Translation of `putItem`: encode the record fields (base64 wrapped key, base64
contents, hex MAC) and insert with `attribute_not_exists(#name)`, which on a
`(name, version)` composite key fails exactly when that key already
exists. -/
def putItem (st : Store) (name version : String) (key contents hm : Bytes) :
    Except String Store :=
  match st.fault with
  | some e => .error e
  | none =>
      if st.items.any (fun i => i.name == name && i.version == version) then
        .error condCheckFailedMsg
      else
        .ok { st with
              items := st.items ++
                [{ name := name, version := version, key := b64encode key,
                   contents := b64encode contents, hmac := hexEncode hm }] }

/-- Translation of `getDeleteSecrets`: empty version scans the table for every item of the
name (error when none); otherwise an exact `GetItem`, where an absent item
produces the not-found error after parsing the version with `strconv.Atoi`
(a panic when it does not parse). -/
def getDeleteSecrets (st : Store) (name version : String) :
    Outcome (List (String × String)) :=
  if version = "" then
    match st.fault with
    | some e => .err e
    | none =>
        match st.items.filter (fun i => i.name == name) with
        | [] => .err (notFoundName name)
        | found => .ok (found.map fun i => (i.name, i.version))
  else
    match st.fault with
    | some e => .err e
    | none =>
        match st.items.find? (fun i => i.name == name && i.version == version) with
        | none =>
            match atoi version with
            | none => .panicked "strconv.Atoi: parsing version"
            | some ver => .err (notFoundNameVersion name ver)
        | some item => .ok [(item.name, item.version)]

/-- Translation of `deleteItem`: unconditional `DeleteItem` by composite key (idempotent at
the store). -/
def deleteItem (st : Store) (name version : String) : Except String Store :=
  match st.fault with
  | some e => .error e
  | none =>
      .ok { st with
            items := st.items.filter fun i => !(i.name == name && i.version == version) }

/-- The deletion loop of `DeleteSecrets`: delete each resolved
`(name, version)` pair, then parse the version for the progress message —
`strconv.Atoi` failure is a panic, after the item was already deleted. -/
def deleteLoop (st : Store) : List (String × String) → Outcome Unit × Store
  | [] => (.ok (), st)
  | (n, v) :: rest =>
      match deleteItem st n v with
      | .error e => (.err e, st)
      | .ok st' =>
          match atoi v with
          | none => (.panicked "strconv.Atoi: parsing version", st')
          | some _ => deleteLoop st' rest

/-- Translation of `DeleteSecrets`: resolve the targets with `getDeleteSecrets`, then
delete them one by one. -/
def DeleteSecrets (st : Store) (name version : String) : Outcome Unit × Store :=
  match getDeleteSecrets st name version with
  | .err e => (.err e, st)
  | .panicked p => (.panicked p, st)
  | .ok items => deleteLoop st items

/-- Message of `PutSecret` on a version conflict. -/
def conflictMsg (name : String) (latestVersion : Int) : String :=
  name ++ " version " ++ toString latestVersion ++
    " is already in the credential store. Use the -v flag to specify a new version"

/-- Translation of `PutSecret` (Seal + conditional insert): generate a 64-byte data key,
split it, AES-CTR-encrypt the secret under the first half, MAC the
ciphertext under the second half, insert conditionally; on a conditional
check failure look up the highest existing version and report it, and
propagate any other insert failure unchanged. -/
def PutSecret (e : CryptoEnv) (kms : KmsEnv) (st : Store) (name : String)
    (secret : Bytes) (version kmsKey : String) (context : Ctx) :
    Outcome Unit × Store :=
  match generateDataKey kms kmsKey context with
  | .error msg => (.err msg, st)
  | .ok (plaintextKey, wrappedKey) =>
      let dataKey := plaintextKey.take 32
      let hmacKey := plaintextKey.drop 32
      let cipherText := cryptAES e secret dataKey
      let hm := doHmac e cipherText hmacKey
      match putItem st name version wrappedKey cipherText hm with
      | .ok st' => (.ok (), st')
      | .error errText =>
          if containsSub "ConditionalCheckFailedException".data errText.data then
            match GetHighestVersion st name with
            | .ok latestVersion => (.err (conflictMsg name latestVersion), st)
            | .err e2 => (.err e2, st)
            | .panicked p => (.panicked p, st)
          else (.err errText, st)

/-- Translation of `GetSecret` (fetch + Open): fetch the record with `getMaterial`, then
decrypt it with `decryptMaterial`. -/
def GetSecret (e : CryptoEnv) (kms : KmsEnv) (st : Store) (name version : String)
    (context : Ctx) : Outcome Bytes :=
  match getMaterial st name version with
  | .err e2 => .err e2
  | .panicked p => .panicked p
  | .ok material => decryptMaterial e kms name material context

/-! ### Concrete instances of the external services, used to evaluate the
theorems at closed inputs -/

/-- A concrete 64-byte data key. -/
def dkW : Bytes := List.range 64

/-- A concrete instantiation of the external crypto primitives: a constant
AES block permutation and a constant HMAC (both legal instances of the
stated contracts — block outputs are 16 bytes `< 256`, MAC outputs are
bytes `< 256`). -/
def eW : CryptoEnv :=
  { blockEnc := fun _ _ => List.replicate 16 7
    hmacSha256 := fun _ _ => List.replicate 32 1 }

/-- A concrete KMS instance: every `GenerateDataKey` call yields `dkW`
wrapped as the blob `[1, 2, 3]` bound to the empty context, and `Decrypt`
unwraps exactly that blob under the empty context, rejecting anything else
as an `InvalidCiphertextException`. -/
def kmsW : KmsEnv :=
  { generate := fun _ _ => .ok (dkW, [1, 2, 3])
    decrypt := fun blob ctx =>
      if blob = [1, 2, 3] ∧ ctx = [] then .ok dkW
      else .error "InvalidCiphertextException: context mismatch" }

/-- A KMS instance whose `Decrypt` always fails with a transport-style
error that is not an `InvalidCiphertextException`. -/
def kmsDown : KmsEnv :=
  { generate := fun _ _ => .error "ServiceUnavailableException"
    decrypt := fun _ _ => .error "ServiceUnavailableException" }

/-- The empty store, no fault injected. -/
def st0 : Store := { items := [], fault := none }

/-- The record `PutSecret` inserts when sealing plaintext `p` under the
data key `dk` wrapped as `blob`: ciphertext under the first key half, MAC
under the second, fields encoded as persisted. -/
def sealedItem (e : CryptoEnv) (name version : String) (p dk blob : Bytes) : Item :=
  { name := name, version := version, key := b64encode blob,
    contents := b64encode (cryptAES e p (dk.take 32)),
    hmac := hexEncode (doHmac e (cryptAES e p (dk.take 32)) (dk.drop 32)) }

/-- A record whose wrapped-key field is the valid base64 of the blob `[9]`,
which `kmsW` rejects as invalid ciphertext. -/
def matC4 : Item :=
  { name := "secret1", version := "1", key := "CQ==", contents := "", hmac := "" }

/-- A record wrapped for `kmsW` (blob `[1, 2, 3]`) whose stored MAC is not
the HMAC `eW` computes: the stored tag decodes to thirty-two `2` bytes
while `eW` always computes thirty-two `1` bytes. -/
def matC2 : Item :=
  { name := "secret2", version := "1", key := "AQID", contents := "BQ==",
    hmac := hexEncode (List.replicate 32 2) }

/-- A record whose wrapped-key field is not decodable base64. -/
def matC9 : Item :=
  { name := "secret9", version := "1", key := "%%%%", contents := "", hmac := "" }

/-- A store holding one record whose version string `"abc"` is not a
decimal integer. -/
def stBad : Store :=
  { items := [{ name := "x", version := "abc", key := "", contents := "", hmac := "" }],
    fault := none }

/-- A store already holding `(db-pass, 1)`. -/
def stC5 : Store :=
  { items := [{ name := "db-pass", version := "1", key := "", contents := "", hmac := "" }],
    fault := none }

/-- A store holding `(foo, 1)`, `(foo, 2)` and `(bar, 1)`. -/
def stC8 : Store :=
  { items := [{ name := "foo", version := "1", key := "", contents := "", hmac := "" },
              { name := "foo", version := "2", key := "", contents := "", hmac := "" },
              { name := "bar", version := "1", key := "", contents := "", hmac := "" }],
    fault := none }

/-! ### Codec roundtrip lemmas -/

/-- Hex digit characters decode back to their value. -/
theorem hexDigitVal_hexDigitChar : ∀ n < 16, hexDigitVal (hexDigitChar n) = some n := by
  decide

/-- Hex decoding inverts hex encoding on byte strings. -/
theorem hexDecodeL_hexEncodeL : ∀ (bs : Bytes), (∀ x ∈ bs, x < 256) →
    hexDecodeL (hexEncodeL bs) = some bs := by
  intro bs
  induction bs with
  | nil => intro _; rfl
  | cons b rest ih =>
      intro h
      have hb : b < 256 := h b (by simp)
      have hhi : b / 16 < 16 := by omega
      have hlo : b % 16 < 16 := by omega
      simp only [hexEncodeL, hexDecodeL, hexDigitVal_hexDigitChar _ hhi,
        hexDigitVal_hexDigitChar _ hlo, ih (fun x hx => h x (by simp [hx]))]
      have : 16 * (b / 16) + b % 16 = b := by omega
      rw [this]

/-- Hex decoding inverts hex encoding, string level. -/
theorem hexDecode_hexEncode (bs : Bytes) (h : ∀ x ∈ bs, x < 256) :
    hexDecode (hexEncode bs) = some bs :=
  hexDecodeL_hexEncodeL bs h

/-- Base64 alphabet characters decode back to their sextet. -/
theorem b64CharVal_b64Char : ∀ n < 64, b64CharVal (b64Char n) = some n := by
  decide

/-- No base64 alphabet character is the padding character. -/
theorem b64Char_ne_pad : ∀ n < 64, ¬(b64Char n = '=') := by
  decide

/-- Base64 decoding inverts base64 encoding on byte strings. -/
theorem b64DecodeL_b64EncodeL : ∀ (bs : Bytes), (∀ x ∈ bs, x < 256) →
    b64DecodeL (b64EncodeL bs) = some bs := by
  intro bs
  induction bs using b64EncodeL.induct with
  | case1 => intro _; rfl
  | case2 a =>
      intro h
      have ha : a < 256 := h a (by simp)
      simp only [b64EncodeL, b64DecodeL,
        b64CharVal_b64Char (a / 4) (by omega),
        b64CharVal_b64Char (a % 4 * 16) (by omega), and_self, if_true]
      have : a / 4 * 4 + a % 4 * 16 / 16 = a := by omega
      rw [this]
  | case3 a b =>
      intro h
      have ha : a < 256 := h a (by simp)
      have hb : b < 256 := h b (by simp)
      simp only [b64EncodeL, b64DecodeL,
        b64CharVal_b64Char (a / 4) (by omega),
        b64CharVal_b64Char (a % 4 * 16 + b / 16) (by omega),
        b64CharVal_b64Char (b % 16 * 4) (by omega), if_true]
      rw [if_neg (b64Char_ne_pad (b % 16 * 4) (by omega))]
      have h1 : a / 4 * 4 + (a % 4 * 16 + b / 16) / 16 = a := by omega
      have h2 : (a % 4 * 16 + b / 16) % 16 * 16 + b % 16 * 4 / 4 = b := by omega
      rw [h1, h2]
  | case4 a b c rest ih =>
      intro h
      have ha : a < 256 := h a (by simp)
      have hb : b < 256 := h b (by simp)
      have hc : c < 256 := h c (by simp)
      simp only [b64EncodeL, b64DecodeL,
        b64CharVal_b64Char (a / 4) (by omega),
        b64CharVal_b64Char (a % 4 * 16 + b / 16) (by omega),
        b64CharVal_b64Char (b % 16 * 4 + c / 64) (by omega),
        b64CharVal_b64Char (c % 64) (by omega),
        ih (fun x hx => h x (by simp [hx]))]
      rw [if_neg (b64Char_ne_pad (b % 16 * 4 + c / 64) (by omega)),
        if_neg (b64Char_ne_pad (c % 64) (by omega))]
      have h1 : a / 4 * 4 + (a % 4 * 16 + b / 16) / 16 = a := by omega
      have h2 : (a % 4 * 16 + b / 16) % 16 * 16 + (b % 16 * 4 + c / 64) / 4 = b := by omega
      have h3 : (b % 16 * 4 + c / 64) % 4 * 64 + c % 64 = c := by omega
      rw [h1, h2, h3]

/-- Base64 decoding inverts base64 encoding, string level. -/
theorem b64decode_b64encode (bs : Bytes) (h : ∀ x ∈ bs, x < 256) :
    b64decode (b64encode bs) = some bs :=
  b64DecodeL_b64EncodeL bs h

/-! ### Stream-cipher lemmas -/

/-- XORing twice with the same (sufficiently long) keystream is the
identity. -/
theorem zipWith_xor_invol : ∀ (p ks : Bytes), p.length ≤ ks.length →
    List.zipWith (· ^^^ ·) (List.zipWith (· ^^^ ·) p ks) ks = p
  | [], _, _ => rfl
  | _ :: _, [], h => by simp at h
  | a :: p, k :: ks, h => by
      simp only [List.zipWith]
      rw [zipWith_xor_invol p ks (by simpa using h), Nat.xor_cancel_right]

/-- Under the contract that the block cipher outputs 16-byte blocks, the
keystream of `n` blocks has length `16 * n`. -/
theorem ctrBlocks_length (e : CryptoEnv) (hlen : ∀ k b, (e.blockEnc k b).length = 16)
    (key : Bytes) : ∀ (iv : Bytes) (n : Nat), (ctrBlocks e key iv n).length = 16 * n
  | _, 0 => rfl
  | iv, n + 1 => by
      simp only [ctrBlocks, List.length_append, hlen,
        ctrBlocks_length e hlen key (incIV iv) n]
      ring

/-- The function `cryptAES` preserves the length of its input. -/
theorem cryptAES_length (e : CryptoEnv) (hlen : ∀ k b, (e.blockEnc k b).length = 16)
    (p key : Bytes) : (cryptAES e p key).length = p.length := by
  simp only [cryptAES, List.length_zipWith, List.length_take,
    ctrBlocks_length e hlen key]
  omega

/-- The function `cryptAES` is its own inverse: decrypting with the same key recovers
the input exactly. -/
theorem cryptAES_invol (e : CryptoEnv) (hlen : ∀ k b, (e.blockEnc k b).length = 16)
    (p key : Bytes) : cryptAES e (cryptAES e p key) key = p := by
  have hc := cryptAES_length e hlen p key
  conv_lhs => rw [cryptAES]
  rw [hc]
  rw [show cryptAES e p key =
      List.zipWith (· ^^^ ·) p
        ((ctrBlocks e key ctrIV ((p.length + 15) / 16)).take p.length) from rfl]
  exact zipWith_xor_invol p _
    (by rw [List.length_take, ctrBlocks_length e hlen key]; omega)

/-- Every keystream byte is a byte, under the block-cipher contract. -/
theorem ctrBlocks_bytes_lt (e : CryptoEnv)
    (hbyte : ∀ k b x, x ∈ e.blockEnc k b → x < 256) (key : Bytes) :
    ∀ (iv : Bytes) (n : Nat), ∀ x ∈ ctrBlocks e key iv n, x < 256
  | _, 0 => by intro x hx; simp [ctrBlocks] at hx
  | iv, n + 1 => by
      intro x hx
      simp only [ctrBlocks, List.mem_append] at hx
      rcases hx with hx | hx
      · exact hbyte key iv x hx
      · exact ctrBlocks_bytes_lt e hbyte key (incIV iv) n x hx

/-- XOR of two byte strings is a byte string. -/
theorem zipWith_xor_bytes_lt : ∀ (p ks : Bytes), (∀ x ∈ p, x < 256) →
    (∀ x ∈ ks, x < 256) → ∀ x ∈ List.zipWith (· ^^^ ·) p ks, x < 256
  | [], _, _, _ => by intro x hx; simp at hx
  | _ :: _, [], _, _ => by intro x hx; simp at hx
  | a :: p, k :: ks, hp, hk => by
      intro x hx
      simp only [List.zipWith, List.mem_cons] at hx
      rcases hx with rfl | hx
      · have h1 : a < 2 ^ 8 := by have := hp a (by simp); omega
        have h2 : k < 2 ^ 8 := by have := hk k (by simp); omega
        have := Nat.xor_lt_two_pow h1 h2
        omega
      · exact zipWith_xor_bytes_lt p ks (fun y hy => hp y (by simp [hy]))
          (fun y hy => hk y (by simp [hy])) x hx

/-- The output of `cryptAES` is a byte string when its input is. -/
theorem cryptAES_bytes_lt (e : CryptoEnv)
    (hbyte : ∀ k b x, x ∈ e.blockEnc k b → x < 256) (p key : Bytes)
    (hp : ∀ x ∈ p, x < 256) : ∀ x ∈ cryptAES e p key, x < 256 := by
  intro x hx
  simp only [cryptAES] at hx
  exact zipWith_xor_bytes_lt p _ hp
    (fun y hy => ctrBlocks_bytes_lt e hbyte key ctrIV _ y (List.mem_of_mem_take hy))
    x hx

/-! ### Range-key order lemmas -/

/-- The byte-wise order is irreflexive. -/
theorem bytesLt_irrefl : ∀ a : List Nat, bytesLt a a = false := by
  intro a
  induction a with
  | nil => rfl
  | cons x as ih => simp [bytesLt, ih]

/-- The byte-wise order is transitive. -/
theorem bytesLt_trans : ∀ (a b c : List Nat),
    bytesLt a b = true → bytesLt b c = true → bytesLt a c = true := by
  intro a
  induction a with
  | nil =>
      intro b c hab hbc
      cases b with
      | nil => simp [bytesLt] at hab
      | cons y bs =>
          cases c with
          | nil => simp [bytesLt] at hbc
          | cons z cs => rfl
  | cons x as ih =>
      intro b c hab hbc
      cases b with
      | nil => simp [bytesLt] at hab
      | cons y bs =>
          cases c with
          | nil => simp [bytesLt] at hbc
          | cons z cs =>
              simp only [bytesLt] at hab hbc ⊢
              split_ifs at hab hbc ⊢ <;>
                first
                | rfl
                | omega
                | (exact ih bs cs hab hbc)

/-- The byte-wise order is total: two lists are related one way or the
other, or equal. -/
theorem bytesLt_total : ∀ a b : List Nat,
    bytesLt a b = true ∨ bytesLt b a = true ∨ a = b := by
  intro a
  induction a with
  | nil =>
      intro b
      cases b with
      | nil => right; right; rfl
      | cons y bs => left; rfl
  | cons x as ih =>
      intro b
      cases b with
      | nil => right; left; rfl
      | cons y bs =>
          rcases Nat.lt_trichotomy x y with h | h | h
          · left; simp [bytesLt, h]
          · subst h
            rcases ih bs with h2 | h2 | h2
            · left; simp [bytesLt, h2]
            · right; left; simp [bytesLt, h2]
            · right; right; rw [h2]
          · right; left; simp [bytesLt, h]

/-! ### Lemmas about the descending limit-1 query (`maxItem`) -/

/-- The query result is one of the items. -/
theorem maxItem_mem (m : Item) (l : List Item) : maxItem m l ∈ m :: l := by
  induction l generalizing m with
  | nil => simp [maxItem]
  | cons j rest ih =>
      simp only [maxItem]
      by_cases h : verLt m.version j.version
      · rw [if_pos h]
        rcases List.mem_cons.mp (ih j) with h2 | h2
        · rw [h2]; simp
        · simp [List.mem_cons.mpr (Or.inr h2)]
      · rw [if_neg h]
        rcases List.mem_cons.mp (ih m) with h2 | h2
        · rw [h2]; simp
        · simp [List.mem_cons.mpr (Or.inr h2)]

/-- No item has a strictly greater range key than the query result: the
descending limit-1 query returns the highest version. -/
theorem maxItem_not_lt (m : Item) (l : List Item) :
    ∀ i ∈ m :: l, verLt (maxItem m l).version i.version = false := by
  induction l generalizing m with
  | nil =>
      intro i hi
      rcases List.mem_cons.mp hi with rfl | h2
      · simp only [maxItem, verLt]; exact bytesLt_irrefl _
      · simp at h2
  | cons j rest ih =>
      intro i hi
      simp only [maxItem]
      by_cases h : verLt m.version j.version
      · rw [if_pos h]
        rcases List.mem_cons.mp hi with rfl | h2
        · by_contra hxm
          have hxm' : verLt (maxItem j rest).version i.version = true := by
            revert hxm; cases verLt (maxItem j rest).version i.version <;> simp
          have hxj : verLt (maxItem j rest).version j.version = false :=
            ih j j (by simp)
          have : bytesLt ((maxItem j rest).version.data.map Char.toNat)
              (j.version.data.map Char.toNat) = true :=
            bytesLt_trans _ _ _ hxm' h
          rw [verLt] at hxj
          simp [this] at hxj
        · exact ih j i h2
      · rw [if_neg h]
        rcases List.mem_cons.mp hi with rfl | h2
        · exact ih i i (by simp)
        · rcases List.mem_cons.mp h2 with rfl | h3
          · by_contra hxj
            have hxj' : verLt (maxItem m rest).version i.version = true := by
              revert hxj; cases verLt (maxItem m rest).version i.version <;> simp
            have hxm : verLt (maxItem m rest).version m.version = false :=
              ih m m (by simp)
            have hmj : verLt m.version i.version = false := by
              revert h; cases verLt m.version i.version <;> simp
            rcases bytesLt_total ((maxItem m rest).version.data.map Char.toNat)
                (m.version.data.map Char.toNat) with ht | ht | ht
            · rw [verLt] at hxm; simp [ht] at hxm
            · have := bytesLt_trans _ _ _ ht hxj'
              rw [verLt] at hmj; simp [this] at hmj
            · rw [verLt, ht] at hxj'
              rw [verLt] at hmj; simp [hxj'] at hmj
          · exact ih m i (List.mem_cons.mpr (Or.inr h3))

/-! ### Lemmas about the deletion loop -/

/-- When no fault is injected and every targeted version string parses, the
deletion loop succeeds and its net effect on the table is to remove exactly
the items whose composite key occurs among the targets. -/
theorem deleteLoop_spec : ∀ (pairs : List (String × String)) (st : Store),
    st.fault = none → (∀ pv ∈ pairs, (atoi pv.2).isSome) →
    (deleteLoop st pairs).1 = .ok () ∧
    (deleteLoop st pairs).2.fault = none ∧
    (deleteLoop st pairs).2.items =
      st.items.filter fun i =>
        pairs.all fun pv => !(i.name == pv.1 && i.version == pv.2) := by
  intro pairs
  induction pairs with
  | nil =>
      intro st hf _
      refine ⟨rfl, hf, ?_⟩
      simp [deleteLoop]
  | cons pv rest ih =>
      intro st hf hparse
      obtain ⟨n, v⟩ := pv
      have hv : (atoi v).isSome := hparse (n, v) (by simp)
      obtain ⟨k, hk⟩ := Option.isSome_iff_exists.mp hv
      simp only [deleteLoop, deleteItem, hf, hk]
      have h2 := ih
        { items := st.items.filter fun i => !(i.name == n && i.version == v),
          fault := none }
        rfl (fun pv hpv => hparse pv (by simp [hpv]))
      refine ⟨h2.1, h2.2.1, ?_⟩
      rw [h2.2.2]
      simp only [List.filter_filter]
      apply List.filter_congr
      intro i _
      simp only [List.all_cons, Bool.and_comm]

/-- For an item of the table, surviving every pair scanned for `name` is
the same as not bearing `name` at all. -/
theorem allPairs_eq_name_filter (items : List Item) (name : String) (i : Item)
    (hi : i ∈ items) :
    (((items.filter fun j => j.name == name).map fun j => (j.name, j.version)).all
        fun pv => !(i.name == pv.1 && i.version == pv.2))
      = !(i.name == name) := by
  by_cases h : i.name = name
  · have hmem : (i.name, i.version) ∈
        (items.filter fun j => j.name == name).map fun j => (j.name, j.version) :=
      List.mem_map_of_mem _ (List.mem_filter.mpr ⟨hi, by simp [h]⟩)
    rw [List.all_eq_false.mpr ⟨(i.name, i.version), hmem, by simp⟩]
    simp [h]
  · rw [List.all_eq_true.mpr ?_]
    · simp [h]
    · intro pv hpv
      obtain ⟨j, hj, hpj⟩ := List.mem_map.mp hpv
      have hjn : j.name = name := by
        have := (List.mem_filter.mp hj).2
        exact beq_iff_eq.mp this
      rw [← hpj]
      simp [hjn, h]

/-! ### Substring helpers -/

/-- A list is a prefix of itself followed by anything. -/
theorem isPrefixL_self_append : ∀ (a b : List Char), isPrefixL a (a ++ b) = true
  | [], _ => rfl
  | c :: cs, b => by simp [isPrefixL, isPrefixL_self_append cs b]

/-- A prefix occurrence is an occurrence. -/
theorem containsSub_of_isPrefixL (needle hay : List Char)
    (h : isPrefixL needle hay = true) : containsSub needle hay = true := by
  cases hay with
  | nil => simpa [containsSub] using h
  | cons c rest => simp [containsSub, h]

/-- An occurrence survives prepending a character. -/
theorem containsSub_cons (needle : List Char) (c : Char) (hay : List Char)
    (h : containsSub needle hay = true) : containsSub needle (c :: hay) = true := by
  simp [containsSub, h]

/-- The needle occurs in any list of the shape `pre ++ needle ++ suf`. -/
theorem containsSub_append_mid (needle pre suf : List Char) :
    containsSub needle (pre ++ (needle ++ suf)) = true := by
  induction pre with
  | nil => exact containsSub_of_isPrefixL _ _ (isPrefixL_self_append needle suf)
  | cons c cs ih => exact containsSub_cons _ c _ ih

/-! ### Claim C3 -/

/-- C3, counterexample: at the concrete tag `"zz"`, whose hex decoding
fails, `checkMAC` does not return `false` — it panics (the Go
`panic(err)`), so a decode failure is not observed like a mismatch. -/
theorem checkMAC_decode_cex :
    hexDecode "zz" = none ∧
    checkMAC eW [] "zz" [] ≠ .ok false ∧
    checkMAC eW [] "zz" [] = .panicked "encoding/hex: invalid byte" := by
  refine ⟨by decide, by decide, by decide⟩

/-- C3, amended: for every message, key, and tag string whose hex decoding
fails, `checkMAC` panics — the operation aborts via `panic(err)` — rather
than returning `false`; in particular it never reports a mismatch for an
undecodable tag. -/
theorem checkMAC_decode_failure_panics (e : CryptoEnv) (message key : Bytes)
    (tag : String) (h : hexDecode tag = none) :
    checkMAC e message tag key = .panicked "encoding/hex: invalid byte" ∧
    checkMAC e message tag key ≠ .ok false := by
  refine ⟨?_, ?_⟩ <;> simp [checkMAC, h]

/-- C3, witness: the amended statement evaluated at the undecodable tag
`"zz"`. -/
theorem checkMAC_decode_failure_panics_w :
    checkMAC eW [] "zz" [] = .panicked "encoding/hex: invalid byte" ∧
    checkMAC eW [] "zz" [] ≠ .ok false :=
  checkMAC_decode_failure_panics eW [] [] "zz" (by decide)

/-! ### Claim C4 -/

/-- C4: when KMS rejects the wrapped key as invalid ciphertext, the
decryption failure distinguishes exactly two cases: with an empty context
the message suggests an encryption context may be required, and with a
non-empty context it says the provided context may not match the one used
when the credential was stored — both naming the secret. -/
theorem decryptMaterial_context_hints (e : CryptoEnv) (kms : KmsEnv)
    (name : String) (material : Item) (context : Ctx) (data : Bytes)
    (errText : String)
    (hKey : b64decode material.key = some data)
    (hDec : kms.decrypt data context = .error errText)
    (hInv : containsSub "InvalidCiphertextException".data errText.data = true) :
    (context = [] →
      decryptMaterial e kms name material context = .err (needCtxMsg name)) ∧
    (context ≠ [] →
      decryptMaterial e kms name material context = .err (wrongCtxMsg name)) := by
  constructor
  · intro hc
    subst hc
    simp [decryptMaterial, hKey, hDec, hInv]
  · intro hc
    have hlen : ¬(context.length < 1) := by
      have := List.length_pos.mpr hc
      omega
    simp [decryptMaterial, hKey, hDec, hInv, hlen]

/-- C4, witness: `kmsW` rejects the blob `[9]`; with the empty context the
error is the context-may-be-required hint. -/
theorem decryptMaterial_context_hints_w :
    decryptMaterial eW kmsW "secret1" matC4 [] = .err (needCtxMsg "secret1") :=
  (decryptMaterial_context_hints eW kmsW "secret1" matC4 [] [9]
    "InvalidCiphertextException: context mismatch"
    (by decide) rfl (by decide)).1 rfl

/-! ### Claim C2 -/

/-- C2: whenever the HMAC-SHA256 recomputed over the stored ciphertext
under the MAC-key half (bytes 32..64 of the unwrapped data key) differs
from the stored MAC, opening fails with the integrity error naming the
secret and never returns plaintext — so any corruption of the ciphertext
or MAC that changes this comparison causes exactly this failure. -/
theorem decryptMaterial_integrity_failure (e : CryptoEnv) (kms : KmsEnv)
    (name : String) (material : Item) (context : Ctx)
    (data dk contents tag : Bytes)
    (hKey : b64decode material.key = some data)
    (hDec : kms.decrypt data context = .ok dk)
    (hContents : b64decode material.contents = some contents)
    (hTag : hexDecode material.hmac = some tag)
    (hMismatch : tag ≠ doHmac e contents (dk.drop 32)) :
    decryptMaterial e kms name material context = .err (badHmacMsg name) ∧
    ∀ pt, decryptMaterial e kms name material context ≠ .ok pt := by
  have hbeq : (tag == doHmac e contents (dk.drop 32)) = false := by
    simpa using hMismatch
  constructor
  · simp [decryptMaterial, checkMAC, hKey, hDec, hContents, hTag, hbeq]
  · intro pt
    simp [decryptMaterial, checkMAC, hKey, hDec, hContents, hTag, hbeq]

/-- C2, witness: the record `matC2` stores a MAC of `2` bytes while the
recomputed MAC is `1` bytes, so opening it fails with the integrity
error. -/
theorem decryptMaterial_integrity_failure_w :
    decryptMaterial eW kmsW "secret2" matC2 [] = .err (badHmacMsg "secret2") :=
  (decryptMaterial_integrity_failure eW kmsW "secret2" matC2 [] [1, 2, 3] dkW [5]
    (List.replicate 32 2)
    (by decide) rfl (by decide) (by decide) (by decide)).1

/-! ### Claim C9 -/

/-- C9, counterexample: at the concrete record whose wrapped-key field is
the undecodable base64 `"%%%%"`, the read does not return an error value —
it panics, aborting the process rather than only the operation. -/
theorem decryptMaterial_malformed_cex :
    b64decode matC9.key = none ∧
    decryptMaterial eW kmsW "secret9" matC9 []
      = .panicked "illegal base64 data in key" ∧
    ∀ msg, decryptMaterial eW kmsW "secret9" matC9 [] ≠ .err msg := by
  refine ⟨by decide, by decide, ?_⟩
  intro msg h
  rw [show decryptMaterial eW kmsW "secret9" matC9 []
      = .panicked "illegal base64 data in key" from by decide] at h
  exact Outcome.noConfusion h

/-- C9, amended: undecodable base64 in the `contents` field makes the read
fail with a returned decode error; undecodable base64 in the `key` field or
undecodable hex in the `hmac` field makes it panic — aborting the process,
not only the operation; and a successful read implies every persisted field
decoded, so corrupted plaintext is never produced from malformed fields. -/
theorem decryptMaterial_malformed_fields (e : CryptoEnv) (kms : KmsEnv)
    (name : String) (material : Item) (context : Ctx) :
    (b64decode material.key = none →
      decryptMaterial e kms name material context
        = .panicked "illegal base64 data in key") ∧
    (∀ data dk, b64decode material.key = some data →
      kms.decrypt data context = .ok dk →
      b64decode material.contents = none →
      decryptMaterial e kms name material context
        = .err "illegal base64 data in contents") ∧
    (∀ data dk contents, b64decode material.key = some data →
      kms.decrypt data context = .ok dk →
      b64decode material.contents = some contents →
      hexDecode material.hmac = none →
      decryptMaterial e kms name material context
        = .panicked "encoding/hex: invalid byte") ∧
    (∀ pt, decryptMaterial e kms name material context = .ok pt →
      ∃ data dk contents tag, b64decode material.key = some data ∧
        kms.decrypt data context = .ok dk ∧
        b64decode material.contents = some contents ∧
        hexDecode material.hmac = some tag) := by
  refine ⟨?_, ?_, ?_, ?_⟩
  · intro hKey
    simp [decryptMaterial, hKey]
  · intro data dk hKey hDec hContents
    simp [decryptMaterial, hKey, hDec, hContents]
  · intro data dk contents hKey hDec hContents hTag
    simp [decryptMaterial, checkMAC, hKey, hDec, hContents, hTag]
  · intro pt hok
    rw [decryptMaterial] at hok
    rcases hkey : b64decode material.key with _ | data
    · simp only [hkey] at hok
      exact Outcome.noConfusion hok
    · simp only [hkey] at hok
      rcases hdec : kms.decrypt data context with errText | dk
      · simp only [hdec] at hok
        by_cases hinv : containsSub "InvalidCiphertextException".data errText.data
        · simp only [hinv, if_true] at hok
          by_cases hl : context.length < 1 <;> simp [hl] at hok
        · simp [hinv] at hok
      · simp only [hdec] at hok
        rcases hcon : b64decode material.contents with _ | contents
        · simp only [hcon] at hok
          exact Outcome.noConfusion hok
        · simp only [hcon] at hok
          rcases htag : hexDecode material.hmac with _ | tag
          · simp only [checkMAC, htag] at hok
            exact Outcome.noConfusion hok
          · exact ⟨data, dk, contents, tag, rfl, hdec, rfl, rfl⟩

/-- C9, witness: the amended statement evaluated at `matC9` (bad `key`
field) — the read panics. -/
theorem decryptMaterial_malformed_fields_w :
    decryptMaterial eW kmsW "secret9" matC9 []
      = .panicked "illegal base64 data in key" :=
  (decryptMaterial_malformed_fields eW kmsW "secret9" matC9 []).1 (by decide)

/-! ### Claim C10 -/

/-- C10: with the stored version string `"abc"`, which is not a decimal
integer, `GetHighestVersion` and `DeleteSecrets` panic via the
`strconv.Atoi` failure instead of returning an error value; and under the
precondition that every version stored under the name parses as an
integer, both return without panicking. -/
theorem atoi_failure_panics :
    GetHighestVersion stBad "x" = .panicked "strconv.Atoi: parsing version" ∧
    (DeleteSecrets stBad "x" "").1 = .panicked "strconv.Atoi: parsing version" ∧
    ∀ (st : Store) (name : String), st.fault = none →
      (∀ i ∈ st.items, i.name = name → (atoi i.version).isSome) →
      (∃ v, GetHighestVersion st name = .ok v) ∧
      ∀ p, (DeleteSecrets st name "").1 ≠ .panicked p := by
  refine ⟨by decide, by decide, ?_⟩
  intro st name hFault hParse
  constructor
  · simp only [GetHighestVersion, hFault]
    rcases hfil : st.items.filter (fun i => i.name == name) with _ | ⟨i, rest⟩
    · simp only [hfil]
      exact ⟨0, rfl⟩
    · have hmem : maxItem i rest ∈ st.items.filter (fun i => i.name == name) := by
        rw [hfil]; exact maxItem_mem i rest
      have hm := List.mem_filter.mp hmem
      have hsome := hParse _ hm.1 (beq_iff_eq.mp hm.2)
      obtain ⟨v, hv⟩ := Option.isSome_iff_exists.mp hsome
      simp only [hfil, hv]
      exact ⟨v, rfl⟩
  · intro p
    simp only [DeleteSecrets, getDeleteSecrets, eq_self_iff_true, if_true, hFault]
    rcases hfil : st.items.filter (fun i => i.name == name) with _ | ⟨i, rest⟩
    · simp only [hfil]
      intro h
      exact Outcome.noConfusion h
    · simp only [hfil]
      have hloop := deleteLoop_spec ((i :: rest).map fun j => (j.name, j.version))
        st hFault ?_
      · rw [hloop.1]
        intro h
        exact Outcome.noConfusion h
      · intro pv hpv
        obtain ⟨j, hj, hpj⟩ := List.mem_map.mp hpv
        have hj' : j ∈ st.items.filter (fun i => i.name == name) := by
          rw [hfil]; exact hj
        have hm := List.mem_filter.mp hj'
        rw [← hpj]
        exact hParse j hm.1 (beq_iff_eq.mp hm.2)

/-- C10, witness: the parsing precondition holds in the store `stC5`
(version `"1"`), so neither operation panics there. -/
theorem atoi_failure_panics_w :
    (∃ v, GetHighestVersion stC5 "db-pass" = .ok v) ∧
    ∀ p, (DeleteSecrets stC5 "db-pass" "").1 ≠ .panicked p :=
  atoi_failure_panics.2.2 stC5 "db-pass" rfl (by decide)

/-! ### Claim C5 -/

/-- C5: when the conditional insert fails because `(name, version)` already
exists, `PutSecret` queries the highest existing version and fails with the
message carrying that number (the rendered number occurs in the message);
any other insert failure is propagated unchanged. -/
theorem putSecret_conflict (e : CryptoEnv) (kms : KmsEnv) (st : Store)
    (name : String) (secret : Bytes) (version kmsKey : String) (context : Ctx)
    (dk blob : Bytes) (hGen : kms.generate kmsKey context = .ok (dk, blob)) :
    (∀ hv : Int, st.fault = none →
      (st.items.any fun i => i.name == name && i.version == version) = true →
      GetHighestVersion st name = .ok hv →
      (PutSecret e kms st name secret version kmsKey context).1
        = .err (conflictMsg name hv) ∧
      containsSub (toString hv).data (conflictMsg name hv).data = true ∧
      (PutSecret e kms st name secret version kmsKey context).2 = st) ∧
    (∀ f, st.fault = some f →
      containsSub "ConditionalCheckFailedException".data f.data = false →
      (PutSecret e kms st name secret version kmsKey context).1 = .err f ∧
      (PutSecret e kms st name secret version kmsKey context).2 = st) := by
  constructor
  · intro hv hFault hAny hHv
    have hcond : containsSub "ConditionalCheckFailedException".data
        condCheckFailedMsg.data = true := by decide
    refine ⟨?_, ?_, ?_⟩
    · simp only [PutSecret, generateDataKey, hGen, putItem, hFault, hAny, if_true,
        hcond, hHv]
    · show containsSub (toString hv).data (conflictMsg name hv).data = true
      have hdata : (conflictMsg name hv).data
          = (name ++ " version ").data ++
            ((toString hv).data ++
              " is already in the credential store. Use the -v flag to specify a new version".data) := by
        simp [conflictMsg, String.data_append]
      rw [hdata]
      exact containsSub_append_mid _ _ _
    · simp only [PutSecret, generateDataKey, hGen, putItem, hFault, hAny, if_true,
        hcond, hHv]
  · intro f hFault hnc
    constructor
    · simp only [PutSecret, generateDataKey, hGen, putItem, hFault, hnc]
      simp
    · simp only [PutSecret, generateDataKey, hGen, putItem, hFault, hnc]
      simp

/-- C5, witness: putting `(db-pass, 1)` into a store already holding it
fails with the conflict message naming version 1, and the store is
unchanged. -/
theorem putSecret_conflict_w :
    (PutSecret eW kmsW stC5 "db-pass" [5] "1" "alias" []).1
      = .err (conflictMsg "db-pass" 1) ∧
    containsSub (toString (1 : Int)).data (conflictMsg "db-pass" 1).data = true ∧
    (PutSecret eW kmsW stC5 "db-pass" [5] "1" "alias" []).2 = stC5 :=
  (putSecret_conflict eW kmsW stC5 "db-pass" [5] "1" "alias" [] dkW [1, 2, 3]
    rfl).1 1 rfl (by decide) (by decide)

/-! ### Claim C6 -/

/-- C6: with nothing stored under the name, `GetHighestVersion` returns 0
and no error; after exactly one `PutSecret` at version `"1"`, it returns
1. -/
theorem getHighestVersion_defaulting (e : CryptoEnv) (kms : KmsEnv) (st : Store)
    (name kmsKey : String) (secret : Bytes) (context : Ctx) (dk blob : Bytes)
    (hFault : st.fault = none)
    (hNone : st.items.filter (fun i => i.name == name) = []) :
    GetHighestVersion st name = .ok 0 ∧
    (kms.generate kmsKey context = .ok (dk, blob) →
      GetHighestVersion (PutSecret e kms st name secret "1" kmsKey context).2 name
        = .ok 1) := by
  constructor
  · simp only [GetHighestVersion, hFault, hNone]
  · intro hGen
    have hNoItem : ∀ i ∈ st.items, ¬((fun i => i.name == name) i = true) :=
      List.filter_eq_nil_iff.mp hNone
    have hAny : (st.items.any fun i => i.name == name && i.version == "1") = false := by
      rw [List.any_eq_false]
      intro i hi
      have := hNoItem i hi
      simp only [Bool.not_eq_true] at this
      simp [this]
    simp only [PutSecret, generateDataKey, hGen, putItem, hFault, hAny]
    simp only [Bool.false_eq_true, if_false, GetHighestVersion, List.filter_append,
      hNone, List.nil_append]
    simp [maxItem]
    rfl

/-- C6, witness: in the empty store the highest version of `db-pass` is 0;
after one put at version `"1"` it is 1. -/
theorem getHighestVersion_defaulting_w :
    GetHighestVersion st0 "db-pass" = .ok 0 ∧
    GetHighestVersion (PutSecret eW kmsW st0 "db-pass" [5] "1" "alias" []).2 "db-pass"
      = .ok 1 :=
  ⟨(getHighestVersion_defaulting eW kmsW st0 "db-pass" "alias" [5] [] dkW [1, 2, 3]
      rfl rfl).1,
   (getHighestVersion_defaulting eW kmsW st0 "db-pass" "alias" [5] [] dkW [1, 2, 3]
      rfl rfl).2 rfl⟩

/-! ### Claim C8 -/

/-- C8: an empty version asks for the latest — the item of the name with
the greatest range key, as returned by the strongly consistent, descending,
limit-1 query — while a non-empty version is an exact point get; in both
cases an absent record produces the not-found error naming the secret
rather than a success. -/
theorem getMaterial_semantics (st : Store) (name version : String)
    (hFault : st.fault = none) :
    ((∀ i ∈ st.items, ¬ i.name = name) →
      getMaterial st name version = .err (notFoundName name)) ∧
    (∀ m, getMaterial st name "" = .ok m →
      m ∈ st.items ∧ m.name = name ∧
      ∀ i ∈ st.items, i.name = name → verLt m.version i.version = false) ∧
    ((∃ i ∈ st.items, i.name = name) → ∃ m, getMaterial st name "" = .ok m) ∧
    (version ≠ "" → ∀ m, getMaterial st name version = .ok m →
      m ∈ st.items ∧ m.name = name ∧ m.version = version) ∧
    (version ≠ "" → (∀ i ∈ st.items, ¬(i.name = name ∧ i.version = version)) →
      getMaterial st name version = .err (notFoundName name)) := by
  refine ⟨?_, ?_, ?_, ?_, ?_⟩
  · intro hno
    by_cases hv : version = ""
    · subst hv
      have hfil : st.items.filter (fun i => i.name == name) = [] :=
        List.filter_eq_nil_iff.mpr (fun i hi => by simp [hno i hi])
      simp only [getMaterial, if_pos rfl, eq_self_iff_true, if_true, hFault, hfil]
    · have hfind : st.items.find? (fun i => i.name == name && i.version == version)
          = none :=
        List.find?_eq_none.mpr (fun i hi => by simp [hno i hi])
      simp only [getMaterial, if_neg hv, hFault, hfind]
  · intro m hok
    simp only [getMaterial, if_pos rfl, eq_self_iff_true, if_true, hFault] at hok
    rcases hfil : st.items.filter (fun i => i.name == name) with _ | ⟨i, rest⟩
    · simp only [hfil] at hok
      exact Outcome.noConfusion hok
    · simp only [hfil] at hok
      have hm : maxItem i rest = m := by
        cases hok
        rfl
      subst hm
      have hmem : maxItem i rest ∈ st.items.filter (fun i => i.name == name) := by
        rw [hfil]
        exact maxItem_mem i rest
      have hmf := List.mem_filter.mp hmem
      refine ⟨hmf.1, beq_iff_eq.mp hmf.2, ?_⟩
      intro j hj hjn
      have hjf : j ∈ st.items.filter (fun i => i.name == name) :=
        List.mem_filter.mpr ⟨hj, by simp [hjn]⟩
      rw [hfil] at hjf
      exact maxItem_not_lt i rest j hjf
  · intro hex
    obtain ⟨j, hj, hjn⟩ := hex
    have hjf : j ∈ st.items.filter (fun i => i.name == name) :=
      List.mem_filter.mpr ⟨hj, by simp [hjn]⟩
    rcases hfil : st.items.filter (fun i => i.name == name) with _ | ⟨i, rest⟩
    · rw [hfil] at hjf
      exact absurd hjf (List.not_mem_nil j)
    · refine ⟨maxItem i rest, ?_⟩
      simp only [getMaterial, if_pos rfl, eq_self_iff_true, if_true, hFault, hfil]
  · intro hv m hok
    simp only [getMaterial, if_neg hv, hFault] at hok
    rcases hfind : st.items.find? (fun i => i.name == name && i.version == version)
        with _ | it
    · simp only [hfind] at hok
      exact Outcome.noConfusion hok
    · simp only [hfind] at hok
      have hm : it = m := by
        cases hok
        rfl
      subst hm
      have hpred := List.find?_some hfind
      simp only [Bool.and_eq_true, beq_iff_eq] at hpred
      exact ⟨List.mem_of_find?_eq_some hfind, hpred.1, hpred.2⟩
  · intro hv hno
    have hfind : st.items.find? (fun i => i.name == name && i.version == version)
        = none :=
      List.find?_eq_none.mpr (fun i hi => by
        have := hno i hi
        simp only [Bool.and_eq_true, beq_iff_eq]
        exact fun hc => this ⟨hc.1, hc.2⟩)
    simp only [getMaterial, if_neg hv, hFault, hfind]

/-- C8, witness: in the seeded store the latest query for `foo` returns a
`foo` record no other `foo` record exceeds, and an exact get for an absent
name errors with the not-found message. -/
theorem getMaterial_semantics_w :
    (∃ m, getMaterial stC8 "foo" "" = .ok m) ∧
    getMaterial stC8 "baz" "1" = .err (notFoundName "baz") :=
  ⟨(getMaterial_semantics stC8 "foo" "" rfl).2.2.1
      ⟨{ name := "foo", version := "1", key := "", contents := "", hmac := "" },
        by decide, rfl⟩,
   (getMaterial_semantics stC8 "baz" "1" rfl).1 (by decide)⟩

/-! ### Claim C7 -/

/-- C7, counterexample: in a store holding the record `(x, abc)`, deleting
exactly that existing record neither returns normally nor reports
not-found — it panics on `strconv.Atoi`, against the claimed behaviour for
every store state. -/
theorem deleteSecrets_nonint_cex :
    (∃ i ∈ stBad.items, i.name = "x" ∧ i.version = "abc") ∧
    (DeleteSecrets stBad "x" "abc").1 = .panicked "strconv.Atoi: parsing version" ∧
    (DeleteSecrets stBad "x" "abc").1 ≠ .ok () := by
  refine ⟨by decide, by decide, by decide⟩

/-- C7, amended: provided every version string involved parses as a decimal
integer (otherwise the operation panics — see the Atoi claims), deleting
with an empty version removes exactly the items of the name and leaves
other names unchanged, erroring with the not-found message when none
exist; deleting a non-empty version removes exactly that record, erroring
with the not-found message naming name and numeric version when absent. -/
theorem deleteSecrets_behaviour (st : Store) (name version : String)
    (hFault : st.fault = none) :
    ((∀ i ∈ st.items, i.name = name → (atoi i.version).isSome) →
      ((∃ i ∈ st.items, i.name = name) →
        (DeleteSecrets st name "").1 = .ok () ∧
        (DeleteSecrets st name "").2.items
          = st.items.filter fun i => !(i.name == name)) ∧
      ((∀ i ∈ st.items, ¬ i.name = name) →
        (DeleteSecrets st name "").1 = .err (notFoundName name) ∧
        (DeleteSecrets st name "").2 = st)) ∧
    (version ≠ "" → ∀ n : Int, atoi version = some n →
      ((∃ i ∈ st.items, i.name = name ∧ i.version = version) →
        (DeleteSecrets st name version).1 = .ok () ∧
        (DeleteSecrets st name version).2.items
          = st.items.filter fun i => !(i.name == name && i.version == version)) ∧
      ((∀ i ∈ st.items, ¬(i.name = name ∧ i.version = version)) →
        (DeleteSecrets st name version).1 = .err (notFoundNameVersion name n) ∧
        (DeleteSecrets st name version).2 = st)) := by
  constructor
  · intro hParse
    constructor
    · intro hex
      obtain ⟨j, hj, hjn⟩ := hex
      have hjf : j ∈ st.items.filter (fun i => i.name == name) :=
        List.mem_filter.mpr ⟨hj, by simp [hjn]⟩
      rcases hfil : st.items.filter (fun i => i.name == name) with _ | ⟨i, rest⟩
      · rw [hfil] at hjf
        exact absurd hjf (List.not_mem_nil j)
      · simp only [DeleteSecrets, getDeleteSecrets, eq_self_iff_true, if_true,
          hFault, hfil]
        have hloop := deleteLoop_spec ((i :: rest).map fun j => (j.name, j.version))
          st hFault ?_
        · refine ⟨hloop.1, ?_⟩
          rw [hloop.2.2, ← hfil]
          exact List.filter_congr fun x hx =>
            allPairs_eq_name_filter st.items name x hx
        · intro pv hpv
          obtain ⟨k, hk, hpk⟩ := List.mem_map.mp hpv
          have hk' : k ∈ st.items.filter (fun i => i.name == name) := by
            rw [hfil]; exact hk
          have hkf := List.mem_filter.mp hk'
          rw [← hpk]
          exact hParse k hkf.1 (beq_iff_eq.mp hkf.2)
    · intro hno
      have hfil : st.items.filter (fun i => i.name == name) = [] :=
        List.filter_eq_nil_iff.mpr (fun i hi => by simp [hno i hi])
      simp only [DeleteSecrets, getDeleteSecrets, eq_self_iff_true, if_true,
        hFault, hfil]
      refine ⟨?_, ?_⟩ <;> trivial
  · intro hv n hn
    constructor
    · intro hex
      obtain ⟨j, hj, hjn, hjv⟩ := hex
      rcases hfind : st.items.find? (fun i => i.name == name && i.version == version)
          with _ | it
      · exact absurd (by simp [hjn, hjv] :
            ((fun i => i.name == name && i.version == version) j) = true)
          (List.find?_eq_none.mp hfind j hj)
      · have hpred := List.find?_some hfind
        simp only [Bool.and_eq_true, beq_iff_eq] at hpred
        simp only [DeleteSecrets, getDeleteSecrets, if_neg hv, hFault, hfind]
        have hloop := deleteLoop_spec [(it.name, it.version)] st hFault ?_
        · refine ⟨hloop.1, ?_⟩
          rw [hloop.2.2]
          exact List.filter_congr fun x _ => by
            simp [hpred.1, hpred.2]
        · intro pv hpv
          have : pv = (it.name, it.version) := by simpa using hpv
          rw [this, hpred.2]
          simp [hn]
    · intro hno
      have hfind : st.items.find? (fun i => i.name == name && i.version == version)
          = none :=
        List.find?_eq_none.mpr (fun i hi => by
          have := hno i hi
          simp only [Bool.and_eq_true, beq_iff_eq]
          exact fun hc => this ⟨hc.1, hc.2⟩)
      simp only [DeleteSecrets, getDeleteSecrets, if_neg hv, hFault, hfind, hn]
      refine ⟨?_, ?_⟩ <;> trivial

/-- C7, witness: the amended statement evaluated on the seeded store —
delete-all for `foo` removes both `foo` versions and leaves `(bar, 1)`;
exact delete of `(foo, 1)` removes only that record. -/
theorem deleteSecrets_behaviour_w :
    ((DeleteSecrets stC8 "foo" "").1 = .ok () ∧
      (DeleteSecrets stC8 "foo" "").2.items
        = stC8.items.filter fun i => !(i.name == "foo")) ∧
    ((DeleteSecrets stC8 "foo" "1").1 = .ok () ∧
      (DeleteSecrets stC8 "foo" "1").2.items
        = stC8.items.filter fun i => !(i.name == "foo" && i.version == "1")) :=
  ⟨(deleteSecrets_behaviour stC8 "foo" "" rfl).1 (by decide) |>.1
      ⟨{ name := "foo", version := "1", key := "", contents := "", hmac := "" },
        by decide, rfl⟩,
   ((deleteSecrets_behaviour stC8 "foo" "1" rfl).2 (by decide) 1 (by decide)).1
      ⟨{ name := "foo", version := "1", key := "", contents := "", hmac := "" },
        by decide, rfl, rfl⟩⟩

/-! ### Claim C1 -/

/-- C1: sealing a plaintext under a context — generate a 64-byte data key,
AES-CTR-encrypt under its first half, MAC the ciphertext under its second
half, store the encoded record — and then opening the stored record with
the same name, version, and context returns exactly the plaintext.  The
external services are constrained only by their contracts: the block cipher
emits 16-byte blocks of bytes, the MAC emits bytes, and KMS unwraps the
blob it produced under the same context. -/
theorem putSecret_getSecret_roundtrip (e : CryptoEnv) (kms : KmsEnv) (st : Store)
    (name version kmsKey : String) (context : Ctx) (p dk blob : Bytes)
    (hBlockLen : ∀ k b, (e.blockEnc k b).length = 16)
    (hBlockByte : ∀ k b x, x ∈ e.blockEnc k b → x < 256)
    (hMacByte : ∀ m k x, x ∈ e.hmacSha256 m k → x < 256)
    (hGen : kms.generate kmsKey context = .ok (dk, blob))
    (hDec : kms.decrypt blob context = .ok dk)
    (hBlob : ∀ x ∈ blob, x < 256)
    (hP : ∀ x ∈ p, x < 256)
    (hFault : st.fault = none)
    (hVer : version ≠ "")
    (hAbsent : ∀ i ∈ st.items, ¬(i.name = name ∧ i.version = version)) :
    (PutSecret e kms st name p version kmsKey context).1 = .ok () ∧
    GetSecret e kms (PutSecret e kms st name p version kmsKey context).2
      name version context = .ok p := by
  have hAny : (st.items.any fun i => i.name == name && i.version == version)
      = false := by
    rw [List.any_eq_false]
    intro i hi
    have h := hAbsent i hi
    simp only [Bool.and_eq_true, beq_iff_eq]
    exact fun hc => h ⟨hc.1, hc.2⟩
  have hputEq : PutSecret e kms st name p version kmsKey context =
      (.ok (), ⟨st.items ++ [sealedItem e name version p dk blob], none⟩) := by
    simp only [PutSecret, generateDataKey, hGen, putItem, hFault, hAny,
      Bool.false_eq_true, if_false, sealedItem]
  rw [hputEq]
  refine ⟨rfl, ?_⟩
  have hfind : (st.items ++ [sealedItem e name version p dk blob]).find?
        (fun i => i.name == name && i.version == version)
      = some (sealedItem e name version p dk blob) := by
    rw [List.find?_append]
    have h1 : st.items.find? (fun i => i.name == name && i.version == version)
        = none := by
      rw [List.find?_eq_none]
      intro i hi
      have h := hAbsent i hi
      simp only [Bool.and_eq_true, beq_iff_eq]
      exact fun hc => h ⟨hc.1, hc.2⟩
    rw [h1]
    simp [List.find?, sealedItem]
  have hkeyd : b64decode (b64encode blob) = some blob := b64decode_b64encode blob hBlob
  have hctb : ∀ x ∈ cryptAES e p (dk.take 32), x < 256 :=
    cryptAES_bytes_lt e hBlockByte p (dk.take 32) hP
  have hcond : b64decode (b64encode (cryptAES e p (dk.take 32)))
      = some (cryptAES e p (dk.take 32)) := b64decode_b64encode _ hctb
  have htagd : hexDecode (hexEncode (doHmac e (cryptAES e p (dk.take 32)) (dk.drop 32)))
      = some (doHmac e (cryptAES e p (dk.take 32)) (dk.drop 32)) :=
    hexDecode_hexEncode _ (fun x hx => hMacByte _ _ x hx)
  simp only [GetSecret, getMaterial, if_neg hVer, hfind]
  simp only [decryptMaterial, sealedItem, checkMAC, hkeyd, hDec, hcond, htagd,
    beq_self_eq_true]
  rw [cryptAES_invol e hBlockLen p (dk.take 32)]

/-- C1, witness: the roundtrip evaluated end to end at a concrete secret,
store, and service instances. -/
theorem putSecret_getSecret_roundtrip_w :
    (PutSecret eW kmsW st0 "db-pass" [115, 51] "1" "alias" []).1 = .ok () ∧
    GetSecret eW kmsW (PutSecret eW kmsW st0 "db-pass" [115, 51] "1" "alias" []).2
      "db-pass" "1" [] = .ok [115, 51] :=
  putSecret_getSecret_roundtrip eW kmsW st0 "db-pass" "1" "alias" [] [115, 51]
    dkW [1, 2, 3]
    (fun _ _ => by simp [eW])
    (fun k b x hx => by
      simp only [eW, List.mem_replicate] at hx
      omega)
    (fun m k x hx => by
      simp only [eW, List.mem_replicate] at hx
      omega)
    rfl rfl (by decide) (by decide) rfl (by decide) (by simp [st0])

end Gcredstash

section Scratch
open Gcredstash

example : atoi "123" = some 123 := by decide
example : atoi "-45" = some (-45) := by decide
example : atoi "abc" = none := by decide
example : atoi "1.5" = none := by decide
example : atoi "" = none := by decide
example : atoi "+" = none := by decide
example : atoi "+7" = some 7 := by decide

example : hexEncode [0, 255, 16] = "00ff10" := by decide
example : hexDecode "00ff10" = some [0, 255, 16] := by decide
example : hexDecode "zz" = none := by decide
example : hexDecode "0" = none := by decide

example : b64encode [77, 97, 110] = "TWFu" := by decide
example : b64encode [77, 97] = "TWE=" := by decide
example : b64encode [77] = "TQ==" := by decide
example : b64decode "TWFu" = some [77, 97, 110] := by decide
example : b64decode "TWE=" = some [77, 97] := by decide
example : b64decode "TQ==" = some [77] := by decide
example : b64decode "%%%%" = none := by decide
example : b64decode "TWF" = none := by decide

example : containsSub "bc".data "abcd".data = true := by decide
example : containsSub "bd".data "abcd".data = false := by decide

example :
    GetSecret eW kmsW (PutSecret eW kmsW st0 "db-pass" [115, 51] "1" "k" []).2
      "db-pass" "1" [] = .ok [115, 51] := by decide

example :
    GetSecret eW kmsW (PutSecret eW kmsW st0 "db-pass" [115, 51] "1" "k" []).2
      "db-pass" "" [] = .ok [115, 51] := by decide

example : GetHighestVersion st0 "x" = .ok 0 := by decide
example :
    GetHighestVersion (PutSecret eW kmsW st0 "db-pass" [115] "1" "k" []).2 "db-pass"
      = .ok 1 := by decide
end Scratch
